import Mathlib

/-!
Verification of the logs-distributor core against its specification.

The Go sources are shallowly embedded: pure functions become Lean
functions, the mutable component state (the retry tracker's in-flight
map, the load balancer's weight maps, the distributor's counters and
queues) becomes explicit state passing, `time.Duration` values are
integer nanoseconds, `float64` weights are rationals, and the
nondeterministic outcome of a Go `select` is an explicit oracle
parameter.
-/

namespace LogsDistributor

/-- LogMessage from models/models.go. Timestamps (`time.Time`) are modelled
as integer nanoseconds. The optional `metadata` map of arbitrary JSON values
is not read by any code under verification and is omitted. -/
structure LogMessage where
  id : String
  timestamp : Int
  level : String
  message : String
  source : String
deriving Repr, DecidableEq

/-- LogPacket from models/models.go: an id, an ordered batch of messages,
and a retry counter starting at 0. -/
structure LogPacket where
  id : String
  messages : List LogMessage
  retryCount : Nat
deriving Repr, DecidableEq

/-- Analyzer from models/models.go. `Weight` (a Go `float64`) is modelled as
a rational; `LastHealthCheck` as integer nanoseconds. -/
structure Analyzer where
  id : String
  name : String
  weight : ℚ
  processingTimeMs : Int
  isHealthy : Bool
  lastHealthCheck : Int
  processedCount : Int
  errorCount : Int
deriving Repr, DecidableEq

/-- AnalysisResult from models/models.go. The success-only `Results` map is
not read by the retry handler and is omitted. -/
structure AnalysisResult where
  packetId : String
  analyzerId : String
  success : Bool
  processedAt : Int
  error : String
deriving Repr, DecidableEq

/-- DeadLetterEntry: the anonymous struct serialized by
saveToDeadLetterFile in retry_handler.go (packet, final_error, failed_at). -/
structure DeadLetterEntry where
  packet : LogPacket
  finalError : String
  failedAt : Int
deriving Repr, DecidableEq

/-- config.MaxRetries from config/config.go. -/
def MaxRetries : Nat := 3

/-- config.BaseRetryDelay = 2 * time.Second, in nanoseconds. -/
def BaseRetryDelay : Int := 2000000000

/-- config.RetryBackoffFactor from config/config.go. -/
def RetryBackoffFactor : Nat := 2

/-- config.MaxPacketSizeBytes = 1024 * 1024. -/
def MaxPacketSizeBytes : Nat := 1048576

/-- config.MaxMessagesPerPacket from config/config.go. -/
def MaxMessagesPerPacket : Nat := 1000

/-- config.MaxLogMessageLength from config/config.go. -/
def MaxLogMessageLength : Nat := 10000

/-- Byte length of a message body: Go `len(msg.Message)` is the UTF-8 byte
count of the string. -/
def msgSize (m : LogMessage) : Nat := m.message.utf8ByteSize

/-- The typed validation errors of the spec's taxonomy; the Go code returns
one distinct `fmt.Errorf` message per kind, with the offending count/size
as payload. -/
inductive ValidationError where
  | emptyMessages
  | tooManyMessages (count : Nat)
  | messageTooLong (length : Nat)
  | packetTooLarge (size : Nat)
deriving Repr, DecidableEq

/-- The message loop of ValidatePacket (packet_validator.go lines 29-35):
walk the messages, rejecting any body longer than MaxLogMessageLength and
accumulating the total body size. -/
def checkMessages : List LogMessage → Nat → Except ValidationError Nat
  | [], totalSize => .ok totalSize
  | m :: rest, totalSize =>
    if msgSize m > MaxLogMessageLength then
      .error (.messageTooLong (msgSize m))
    else
      checkMessages rest (totalSize + msgSize m)

/-- ValidatePacket from packet_validator.go. -/
def ValidatePacket (packet : LogPacket) : Except ValidationError Unit :=
  if packet.messages.length = 0 then
    .error .emptyMessages
  else if packet.messages.length > MaxMessagesPerPacket then
    .error (.tooManyMessages packet.messages.length)
  else
    match checkMessages packet.messages 0 with
    | .error e => .error e
    | .ok totalSize =>
      if totalSize > MaxPacketSizeBytes then
        .error (.packetTooLarge totalSize)
      else
        .ok ()

/-- Total body size of a packet, the value `totalSize` accumulates. -/
def packetSize (packet : LogPacket) : Nat :=
  (packet.messages.map msgSize).sum

/-- The retry tracker's in-flight map `packetMap map[string]LogPacket`,
modelled as an association list with Go map lookup semantics. -/
abbrev PacketMap := List (String × LogPacket)

/-- Go map read `m[k]`. -/
def mapLookup : PacketMap → String → Option LogPacket
  | [], _ => none
  | e :: rest, k => if e.1 = k then some e.2 else mapLookup rest k

/-- Go `delete(m, k)`. -/
def mapErase : PacketMap → String → PacketMap
  | [], _ => []
  | e :: rest, k => if e.1 = k then mapErase rest k else e :: mapErase rest k

/-- Go map write `m[k] = v` (insert or overwrite). -/
def mapInsert (m : PacketMap) (k : String) (v : LogPacket) : PacketMap :=
  (k, v) :: mapErase m k

theorem checkMessages_ok_of (l : List LogMessage) (acc : Nat)
    (h : ∀ m ∈ l, msgSize m ≤ MaxLogMessageLength) :
    checkMessages l acc = .ok (acc + (l.map msgSize).sum) := by
  induction l generalizing acc with
  | nil => simp [checkMessages]
  | cons m rest ih =>
    have hm : ¬ msgSize m > MaxLogMessageLength := by
      simpa using h m (by simp)
    simp only [checkMessages, if_neg hm]
    rw [ih (acc + msgSize m) (fun x hx => h x (by simp [hx]))]
    simp [Nat.add_assoc]

theorem checkMessages_eq_ok (l : List LogMessage) (acc t : Nat)
    (h : checkMessages l acc = .ok t) :
    (∀ m ∈ l, msgSize m ≤ MaxLogMessageLength) ∧ t = acc + (l.map msgSize).sum := by
  induction l generalizing acc with
  | nil =>
    simp only [checkMessages] at h
    cases h
    simp
  | cons m rest ih =>
    simp only [checkMessages] at h
    by_cases hm : msgSize m > MaxLogMessageLength
    · rw [if_pos hm] at h
      cases h
    · rw [if_neg hm] at h
      obtain ⟨hall, ht⟩ := ih (acc + msgSize m) h
      refine ⟨?_, ?_⟩
      · intro x hx
        rcases List.mem_cons.mp hx with rfl | hx
        · omega
        · exact hall x hx
      · simp [ht, Nat.add_assoc]

theorem checkMessages_err (l : List LogMessage) (acc : Nat)
    (h : ∃ m ∈ l, MaxLogMessageLength < msgSize m) :
    ∃ n, MaxLogMessageLength < n ∧
      checkMessages l acc = .error (.messageTooLong n) := by
  induction l generalizing acc with
  | nil => simp at h
  | cons m rest ih =>
    by_cases hm : msgSize m > MaxLogMessageLength
    · exact ⟨msgSize m, hm, by simp [checkMessages, if_pos hm]⟩
    · obtain ⟨x, hx, hxl⟩ := h
      rcases List.mem_cons.mp hx with rfl | hx
      · exact absurd hxl hm
      · obtain ⟨n, hn, he⟩ := ih (acc + msgSize m) ⟨x, hx, hxl⟩
        exact ⟨n, hn, by simp [checkMessages, if_neg hm, he]⟩

/-- C6: ValidatePacket returns ok exactly when the message count is in
[1, MaxMessagesPerPacket], every body is at most MaxLogMessageLength bytes,
and the summed bodies are at most MaxPacketSizeBytes; otherwise it returns
the single typed error of the first failed check, in the order
EmptyMessages, TooManyMessages, MessageTooLong, PacketTooLarge. -/
theorem validatePacket_ok_iff_and_error_classes (p : LogPacket) :
    (ValidatePacket p = .ok () ↔
      (1 ≤ p.messages.length ∧ p.messages.length ≤ MaxMessagesPerPacket ∧
        (∀ m ∈ p.messages, msgSize m ≤ MaxLogMessageLength) ∧
        packetSize p ≤ MaxPacketSizeBytes)) ∧
    (p.messages.length = 0 → ValidatePacket p = .error .emptyMessages) ∧
    (MaxMessagesPerPacket < p.messages.length →
      ValidatePacket p = .error (.tooManyMessages p.messages.length)) ∧
    (p.messages.length ≠ 0 → p.messages.length ≤ MaxMessagesPerPacket →
      (∃ m ∈ p.messages, MaxLogMessageLength < msgSize m) →
      ∃ n, MaxLogMessageLength < n ∧
        ValidatePacket p = .error (.messageTooLong n)) ∧
    (p.messages.length ≠ 0 → p.messages.length ≤ MaxMessagesPerPacket →
      (∀ m ∈ p.messages, msgSize m ≤ MaxLogMessageLength) →
      MaxPacketSizeBytes < packetSize p →
      ValidatePacket p = .error (.packetTooLarge (packetSize p))) := by
  refine ⟨?_, ?_, ?_, ?_, ?_⟩
  · constructor
    · intro h
      simp only [ValidatePacket] at h
      by_cases h0 : p.messages.length = 0
      · rw [if_pos h0] at h
        cases h
      · rw [if_neg h0] at h
        by_cases h1 : p.messages.length > MaxMessagesPerPacket
        · rw [if_pos h1] at h
          cases h
        · rw [if_neg h1] at h
          split at h
          · cases h
          · rename_i t hc
            obtain ⟨hall, ht⟩ := checkMessages_eq_ok _ _ _ hc
            by_cases h2 : t > MaxPacketSizeBytes
            · rw [if_pos h2] at h
              cases h
            · refine ⟨by omega, by omega, hall, ?_⟩
              have : packetSize p = t := by
                simp [packetSize, ht]
              omega
    · rintro ⟨h1, h2, h3, h4⟩
      have h0 : ¬ p.messages.length = 0 := by omega
      have h1' : ¬ p.messages.length > MaxMessagesPerPacket := by omega
      have hc := checkMessages_ok_of p.messages 0 h3
      have hps : (p.messages.map msgSize).sum = packetSize p := rfl
      simp only [ValidatePacket, if_neg h0, if_neg h1', hc, Nat.zero_add, hps]
      rw [if_neg (by omega)]
  · intro h0
    simp [ValidatePacket, h0]
  · intro h1
    have h0 : ¬ p.messages.length = 0 := by
      have : 0 < MaxMessagesPerPacket := by norm_num [MaxMessagesPerPacket]
      omega
    simp [ValidatePacket, h0, h1]
  · intro h0 h1 hex
    obtain ⟨n, hn, he⟩ := checkMessages_err p.messages 0 hex
    refine ⟨n, hn, ?_⟩
    simp [ValidatePacket, h0, Nat.not_lt.mpr h1, he]
  · intro h0 h1 hall h2
    have hc := checkMessages_ok_of p.messages 0 hall
    have hps : (p.messages.map msgSize).sum = packetSize p := rfl
    simp [ValidatePacket, h0, Nat.not_lt.mpr h1, hc, hps, h2]

/-- Witness for C6: a concrete packet with one 3-byte message validates, and
a concrete empty packet fails with EmptyMessages. -/
theorem validatePacket_ok_iff_and_error_classes_witness :
    ValidatePacket ⟨"p1", [⟨"m1", 0, "INFO", "abc", "svc"⟩], 0⟩ = .ok () ∧
    ValidatePacket ⟨"p2", [], 0⟩ = .error .emptyMessages := by
  constructor
  · exact (validatePacket_ok_iff_and_error_classes
      ⟨"p1", [⟨"m1", 0, "INFO", "abc", "svc"⟩], 0⟩).1.mpr
      (by refine ⟨by decide, by decide, ?_, by decide⟩
          intro m hm
          simp at hm
          subst hm
          decide)
  · exact (validatePacket_ok_iff_and_error_classes ⟨"p2", [], 0⟩).2.1 rfl

/-- Truncation threshold `maxDeadLetterEntries` from saveToDeadLetterFile
(retry_handler.go line 154). -/
def maxDeadLetterEntries : Nat := 10000

/-- saveToDeadLetterFile from retry_handler.go lines 134-174: read the
current entries, truncate to the most recent `maxDeadLetterEntries / 2`
when at or above the cap, and append the new entry built from the packet,
the final error string and the current time. The on-disk JSON array is
modelled as the list of entries. -/
def saveToDeadLetterFile (entries : List DeadLetterEntry) (packet : LogPacket)
    (finalError : String) (now : Int) : List DeadLetterEntry :=
  let entries :=
    if entries.length ≥ maxDeadLetterEntries then
      entries.drop (entries.length - maxDeadLetterEntries / 2)
    else
      entries
  entries ++ [⟨packet, finalError, now⟩]

/-- The retry handler's mutable state: the in-flight packet map and the
dead-letter store it appends to. -/
structure RetryState where
  packetMap : PacketMap
  deadLetter : List DeadLetterEntry
deriving Repr, DecidableEq

/-- HandleFailedPacket from retry_handler.go lines 53-85. Besides the new
state it returns the retry it schedules, if any: the stored-back packet
together with the computed backoff duration in nanoseconds
(`time.Duration(packet.RetryCount*config.RetryBackoffFactor) * config.BaseRetryDelay`,
computed after the increment). -/
def HandleFailedPacket (s : RetryState) (result : AnalysisResult) (now : Int) :
    RetryState × Option (LogPacket × Int) :=
  match mapLookup s.packetMap result.packetId with
  | none => (s, none)
  | some packet =>
    if packet.retryCount < MaxRetries then
      let packet' : LogPacket := { packet with retryCount := packet.retryCount + 1 }
      let backoffDuration : Int :=
        ((packet'.retryCount * RetryBackoffFactor : Nat) : Int) * BaseRetryDelay
      ({ s with packetMap := mapInsert s.packetMap result.packetId packet' },
        some (packet', backoffDuration))
    else
      ({ packetMap := mapErase s.packetMap result.packetId,
         deadLetter := saveToDeadLetterFile s.deadLetter packet result.error now },
        none)

theorem mapLookup_mapErase_self (m : PacketMap) (k : String) :
    mapLookup (mapErase m k) k = none := by
  induction m with
  | nil => rfl
  | cons e rest ih =>
    by_cases he : e.1 = k
    · simpa [mapErase, he] using ih
    · simpa [mapErase, mapLookup, he] using ih

theorem mapLookup_mapErase_other (m : PacketMap) (k k' : String) (h : k' ≠ k) :
    mapLookup (mapErase m k) k' = mapLookup m k' := by
  induction m with
  | nil => rfl
  | cons e rest ih =>
    have hk : ¬ k = k' := fun hh => h hh.symm
    by_cases he : e.1 = k
    · have : ¬ e.1 = k' := fun hh => h (hh ▸ he)
      simp [mapErase, mapLookup, he, this, ih, hk]
    · by_cases he' : e.1 = k'
      · simp [mapErase, mapLookup, he, he', ih, h]
      · simp [mapErase, mapLookup, he, he', ih, h]

theorem mapLookup_mapInsert_self (m : PacketMap) (k : String) (v : LogPacket) :
    mapLookup (mapInsert m k v) k = some v := by
  simp [mapInsert, mapLookup]

theorem mapLookup_mapInsert_other (m : PacketMap) (k k' : String) (v : LogPacket)
    (h : k' ≠ k) :
    mapLookup (mapInsert m k v) k' = mapLookup m k' := by
  have : ¬ k = k' := fun hh => h hh.symm
  simp [mapInsert, mapLookup, this, mapLookup_mapErase_other m k k' h]

/-- C3: when a failed result's packet is tracked with retry_count below
MaxRetries, HandleFailedPacket stores the packet back with retry_count
incremented by one and schedules a retry whose delay is
(new retry_count) * RetryBackoffFactor * BaseRetryDelay; with the stock
configuration the delays for the three attempts are 4s, 8s and 12s. -/
theorem handleFailedPacket_backoff (s : RetryState) (result : AnalysisResult)
    (now : Int) (p : LogPacket)
    (_hfail : result.success = false)
    (hp : mapLookup s.packetMap result.packetId = some p)
    (hrc : p.retryCount < MaxRetries) :
    (HandleFailedPacket s result now).2 =
      some ({ p with retryCount := p.retryCount + 1 },
        (((p.retryCount + 1) * RetryBackoffFactor : Nat) : Int) * BaseRetryDelay) ∧
    mapLookup (HandleFailedPacket s result now).1.packetMap result.packetId =
      some { p with retryCount := p.retryCount + 1 } ∧
    (p.retryCount = 0 →
      (((p.retryCount + 1) * RetryBackoffFactor : Nat) : Int) * BaseRetryDelay =
        4000000000) ∧
    (p.retryCount = 1 →
      (((p.retryCount + 1) * RetryBackoffFactor : Nat) : Int) * BaseRetryDelay =
        8000000000) ∧
    (p.retryCount = 2 →
      (((p.retryCount + 1) * RetryBackoffFactor : Nat) : Int) * BaseRetryDelay =
        12000000000) := by
  refine ⟨?_, ?_, ?_, ?_, ?_⟩
  · simp [HandleFailedPacket, hp, hrc]
  · simp [HandleFailedPacket, hp, hrc, mapLookup_mapInsert_self]
  · intro h
    rw [h]
    decide
  · intro h
    rw [h]
    decide
  · intro h
    rw [h]
    decide

/-- Witness for C3: a tracked packet at retry_count 0 is stored back at
retry_count 1 and its retry is scheduled with a 4-second delay. -/
theorem handleFailedPacket_backoff_witness :
    (HandleFailedPacket
        ⟨[("p1", ⟨"p1", [], 0⟩)], []⟩ ⟨"p1", "a1", false, 7, "boom"⟩ 7).2 =
      some (⟨"p1", [], 1⟩, 4000000000) := by
  have h := handleFailedPacket_backoff
    ⟨[("p1", ⟨"p1", [], 0⟩)], []⟩ ⟨"p1", "a1", false, 7, "boom"⟩ 7 ⟨"p1", [], 0⟩
    rfl (by decide) (by decide)
  rw [h.1]
  have h4 := h.2.2.1 rfl
  rw [h4]

/-- C5: on a failed result, HandleFailedPacket leaves both the in-flight map
and the dead-letter store untouched when the packet id is unknown;
increments the stored retry_count (dead-lettering nothing) when it is below
MaxRetries; and at MaxRetries removes the packet from the map and appends a
DeadLetterEntry carrying that packet and the result's error string. -/
theorem handleFailedPacket_cases (s : RetryState) (result : AnalysisResult)
    (now : Int) (_hfail : result.success = false) :
    (mapLookup s.packetMap result.packetId = none →
      HandleFailedPacket s result now = (s, none)) ∧
    (∀ p, mapLookup s.packetMap result.packetId = some p →
      p.retryCount < MaxRetries →
      mapLookup (HandleFailedPacket s result now).1.packetMap result.packetId =
        some { p with retryCount := p.retryCount + 1 } ∧
      (∀ k, k ≠ result.packetId →
        mapLookup (HandleFailedPacket s result now).1.packetMap k =
          mapLookup s.packetMap k) ∧
      (HandleFailedPacket s result now).1.deadLetter = s.deadLetter) ∧
    (∀ p, mapLookup s.packetMap result.packetId = some p →
      p.retryCount = MaxRetries →
      mapLookup (HandleFailedPacket s result now).1.packetMap result.packetId =
        none ∧
      (∀ k, k ≠ result.packetId →
        mapLookup (HandleFailedPacket s result now).1.packetMap k =
          mapLookup s.packetMap k) ∧
      (HandleFailedPacket s result now).1.deadLetter =
        saveToDeadLetterFile s.deadLetter p result.error now ∧
      (HandleFailedPacket s result now).1.deadLetter.getLast? =
        some ⟨p, result.error, now⟩) := by
  refine ⟨?_, ?_, ?_⟩
  · intro hn
    simp [HandleFailedPacket, hn]
  · intro p hp hrc
    refine ⟨?_, ?_, ?_⟩
    · simp [HandleFailedPacket, hp, hrc, mapLookup_mapInsert_self]
    · intro k hk
      simp [HandleFailedPacket, hp, hrc,
        mapLookup_mapInsert_other _ _ _ _ hk]
    · simp [HandleFailedPacket, hp, hrc]
  · intro p hp hrc
    have hge : ¬ p.retryCount < MaxRetries := by omega
    refine ⟨?_, ?_, ?_, ?_⟩
    · simp [HandleFailedPacket, hp, hge, mapLookup_mapErase_self]
    · intro k hk
      simp [HandleFailedPacket, hp, hge,
        mapLookup_mapErase_other _ _ _ hk]
    · simp [HandleFailedPacket, hp, hge]
    · simp [HandleFailedPacket, hp, hge, saveToDeadLetterFile]

/-- Witness for C5: a packet tracked at retry_count = MaxRetries is removed
and dead-lettered with the result's error string. -/
theorem handleFailedPacket_cases_witness :
    mapLookup (HandleFailedPacket
        ⟨[("p1", ⟨"p1", [], 3⟩)], []⟩
        ⟨"p1", "a1", false, 7, "boom"⟩ 7).1.packetMap "p1" = none ∧
    (HandleFailedPacket
        ⟨[("p1", ⟨"p1", [], 3⟩)], []⟩
        ⟨"p1", "a1", false, 7, "boom"⟩ 7).1.deadLetter.getLast? =
      some ⟨⟨"p1", [], 3⟩, "boom", 7⟩ := by
  have h := (handleFailedPacket_cases
    ⟨[("p1", ⟨"p1", [], 3⟩)], []⟩ ⟨"p1", "a1", false, 7, "boom"⟩ 7 rfl).2.2
    ⟨"p1", [], 3⟩ (by decide) (by decide)
  exact ⟨h.1, h.2.2.2⟩

/-- Which branch of the Go `select` in SubmitPacket fires: the buffered send
onto the packets queue succeeds, the SubmissionTimeout expires, or the root
context is cancelled. The choice is runtime nondeterminism, so the embedding
takes it as an oracle parameter. -/
inductive SubmitOutcome where
  | enqueued
  | timedOut
  | cancelled
deriving Repr, DecidableEq

/-- The submission errors SubmitPacket can return. -/
inductive SubmitError where
  | validationFailed (e : ValidationError)
  | queueFull
  | shuttingDown
deriving Repr, DecidableEq

/-- The distributor state touched by SubmitPacket: the retry tracker it
calls into, the packets queue, and the atomic totalPacketsReceived
counter. -/
structure DistState where
  retry : RetryState
  packetQueue : List LogPacket
  totalPacketsReceived : Int
deriving Repr, DecidableEq

/-- SubmitPacket from the distributor orchestrator (lines 193-211): validate;
TrackPacket; increment totalPacketsReceived; then the `select` — on a
successful send return ok, on timeout UntrackPacket and fail QueueFull, on
context cancellation fail ShuttingDown (with no untrack). -/
def SubmitPacket (d : DistState) (packet : LogPacket) (outcome : SubmitOutcome) :
    Except SubmitError Unit × DistState :=
  match ValidatePacket packet with
  | .error e => (.error (.validationFailed e), d)
  | .ok () =>
    let d' : DistState :=
      { d with
        retry := { d.retry with
          packetMap := mapInsert d.retry.packetMap packet.id packet },
        totalPacketsReceived := d.totalPacketsReceived + 1 }
    match outcome with
    | .enqueued =>
      (.ok (), { d' with packetQueue := d'.packetQueue ++ [packet] })
    | .timedOut =>
      (.error .queueFull,
        { d' with retry := { d'.retry with
            packetMap := mapErase d'.retry.packetMap packet.id } })
    | .cancelled =>
      (.error .shuttingDown, d')

/-- A concrete valid one-message packet used by counterexamples. -/
def cexPacket : LogPacket :=
  ⟨"p1", [⟨"m1", 0, "INFO", "abc", "svc"⟩], 0⟩

/-- An empty distributor state used by counterexamples. -/
def cexDist : DistState := ⟨⟨[], []⟩, [], 0⟩

/-- Counterexample to C1: a valid packet whose submission hits context
cancellation gets the ShuttingDown error, yet it IS present in the retry
tracker's in-flight map after the call (the code untracks only on the
timeout branch). -/
theorem submitPacket_cancelled_leaves_tracked :
    (SubmitPacket cexDist cexPacket .cancelled).1 = .error .shuttingDown ∧
    mapLookup (SubmitPacket cexDist cexPacket .cancelled).2.retry.packetMap
      "p1" = some cexPacket :=
  ⟨rfl, rfl⟩

/-- C1 (amended): for every valid packet, the QueueFull outcome untracks the
packet (absent from the in-flight map afterwards, queue unchanged), while the
ShuttingDown outcome returns the error with the packet still tracked; the ok
outcome leaves it tracked and enqueued. -/
theorem submitPacket_error_tracking (d : DistState) (p : LogPacket)
    (hv : ValidatePacket p = .ok ()) :
    ((SubmitPacket d p .timedOut).1 = .error .queueFull ∧
      mapLookup (SubmitPacket d p .timedOut).2.retry.packetMap p.id = none ∧
      (SubmitPacket d p .timedOut).2.packetQueue = d.packetQueue) ∧
    ((SubmitPacket d p .cancelled).1 = .error .shuttingDown ∧
      mapLookup (SubmitPacket d p .cancelled).2.retry.packetMap p.id = some p ∧
      (SubmitPacket d p .cancelled).2.packetQueue = d.packetQueue) ∧
    ((SubmitPacket d p .enqueued).1 = .ok () ∧
      mapLookup (SubmitPacket d p .enqueued).2.retry.packetMap p.id = some p ∧
      (SubmitPacket d p .enqueued).2.packetQueue = d.packetQueue ++ [p]) := by
  refine ⟨⟨?_, ?_, ?_⟩, ⟨?_, ?_, ?_⟩, ⟨?_, ?_, ?_⟩⟩ <;>
    simp [SubmitPacket, hv, mapInsert, mapLookup, mapLookup_mapErase_self]

/-- Witness for the amended C1 at a concrete state and packet. -/
theorem submitPacket_error_tracking_witness :
    mapLookup (SubmitPacket cexDist cexPacket .timedOut).2.retry.packetMap
      "p1" = none := by
  have h := submitPacket_error_tracking cexDist cexPacket rfl
  exact h.1.2.1

/-- Counterexample to C2: a valid packet whose submission times out returns
QueueFull, yet totalPacketsReceived has been incremented (1 ≠ 0): the
counter is bumped before the enqueue attempt, not after it. -/
theorem submitPacket_timeout_increments_counter :
    (SubmitPacket cexDist cexPacket .timedOut).1 = .error .queueFull ∧
    (SubmitPacket cexDist cexPacket .timedOut).2.totalPacketsReceived = 1 ∧
    cexDist.totalPacketsReceived = 0 :=
  ⟨rfl, rfl, rfl⟩

/-- C2 (amended): SubmitPacket increments totalPacketsReceived for every
packet that passes validation, whatever the submission outcome — also on
QueueFull and ShuttingDown; only a validation failure leaves the counter
(and the whole state) unchanged. -/
theorem submitPacket_counter (d : DistState) (p : LogPacket)
    (outcome : SubmitOutcome) :
    (ValidatePacket p = .ok () →
      (SubmitPacket d p outcome).2.totalPacketsReceived =
        d.totalPacketsReceived + 1) ∧
    (∀ e, ValidatePacket p = .error e →
      (SubmitPacket d p outcome).1 = .error (.validationFailed e) ∧
      (SubmitPacket d p outcome).2 = d) := by
  constructor
  · intro hv
    cases outcome <;> simp [SubmitPacket, hv]
  · intro e hv
    cases outcome <;> simp [SubmitPacket, hv]

/-- Witness for the amended C2: the counter is 1 after an ok submission to
the empty state, and an invalid packet leaves the state unchanged. -/
theorem submitPacket_counter_witness :
    (SubmitPacket cexDist cexPacket .enqueued).2.totalPacketsReceived = 1 ∧
    (SubmitPacket cexDist ⟨"p2", [], 0⟩ .enqueued).2 = cexDist := by
  constructor
  · exact (submitPacket_counter cexDist cexPacket .enqueued).1 rfl
  · exact ((submitPacket_counter cexDist ⟨"p2", [], 0⟩ .enqueued).2
      .emptyMessages rfl).2

/-- One iteration of the SubmitLogs loop in api/handlers.go (lines 84-104):
packets with zero messages are skipped without submission (`none`); a packet
whose id is the empty string is replaced by `models.NewLogPacket(messages)`,
a fresh packet carrying a server-generated uuid (passed here as `freshId`,
never empty in Go) and retry count 0; the (possibly replaced) packet is then
handed to SubmitPacket. -/
def SubmitLogsStep (d : DistState) (packet : LogPacket) (freshId : String)
    (outcome : SubmitOutcome) : Option (Except SubmitError Unit × DistState) :=
  if packet.messages.length = 0 then
    none
  else
    let packet :=
      if packet.id = "" then
        { id := freshId, messages := packet.messages, retryCount := 0 }
      else
        packet
    some (SubmitPacket d packet outcome)

/-- Counterexample to C7: SubmitPacket itself performs no id assignment — a
valid packet with an empty id is tracked and enqueued as-is, so the empty
string ends up both as key of the in-flight map and as the id of the queued
packet. -/
theorem submitPacket_no_id_assignment :
    (SubmitPacket cexDist ⟨"", [⟨"m1", 0, "INFO", "abc", "svc"⟩], 0⟩
        .enqueued).1 = .ok () ∧
    mapLookup (SubmitPacket cexDist ⟨"", [⟨"m1", 0, "INFO", "abc", "svc"⟩], 0⟩
        .enqueued).2.retry.packetMap "" =
      some ⟨"", [⟨"m1", 0, "INFO", "abc", "svc"⟩], 0⟩ ∧
    (SubmitPacket cexDist ⟨"", [⟨"m1", 0, "INFO", "abc", "svc"⟩], 0⟩
        .enqueued).2.packetQueue =
      [⟨"", [⟨"m1", 0, "INFO", "abc", "svc"⟩], 0⟩] :=
  ⟨rfl, rfl, rfl⟩

/-- C7 (amended): the id assignment lives in the HTTP handler, not in
SubmitPacket: SubmitLogsStep hands SubmitPacket a packet whose id is the
server-generated uuid whenever the submitted one was empty, so through the
HTTP path the packet enters the in-flight map and the packets queue under a
non-empty id. -/
theorem submitLogs_assigns_id (d : DistState) (p : LogPacket)
    (freshId : String) (outcome : SubmitOutcome)
    (hfresh : freshId ≠ "") (hmsg : p.messages.length ≠ 0) :
    ∃ q : LogPacket, q.id ≠ "" ∧ q.messages = p.messages ∧
      SubmitLogsStep d p freshId outcome = some (SubmitPacket d q outcome) ∧
      (ValidatePacket q = .ok () →
        mapLookup (SubmitPacket d q .enqueued).2.retry.packetMap q.id =
          some q ∧
        (SubmitPacket d q .enqueued).2.packetQueue = d.packetQueue ++ [q]) := by
  by_cases hid : p.id = ""
  · refine ⟨{ id := freshId, messages := p.messages, retryCount := 0 },
      hfresh, rfl, ?_, ?_⟩
    · simp [SubmitLogsStep, hmsg, hid]
    · intro hv
      exact ⟨(submitPacket_error_tracking d _ hv).2.2.2.1,
        (submitPacket_error_tracking d _ hv).2.2.2.2⟩
  · refine ⟨p, hid, rfl, ?_, ?_⟩
    · simp [SubmitLogsStep, hmsg, hid]
    · intro hv
      exact ⟨(submitPacket_error_tracking d p hv).2.2.2.1,
        (submitPacket_error_tracking d p hv).2.2.2.2⟩

/-- Witness for the amended C7: an id-less packet goes through the handler
step under the generated uuid. -/
theorem submitLogs_assigns_id_witness :
    ∃ q : LogPacket, q.id ≠ "" ∧
      q.messages = [⟨"m1", 0, "INFO", "abc", "svc"⟩] ∧
      SubmitLogsStep cexDist ⟨"", [⟨"m1", 0, "INFO", "abc", "svc"⟩], 0⟩
          "uuid-1" .enqueued =
        some (SubmitPacket cexDist q .enqueued) := by
  obtain ⟨q, h1, h2, h3, _⟩ := submitLogs_assigns_id cexDist
    ⟨"", [⟨"m1", 0, "INFO", "abc", "svc"⟩], 0⟩ "uuid-1" .enqueued
    (by decide) (by decide)
  exact ⟨q, h1, h2, h3⟩

theorem saveToDeadLetterFile_length (entries : List DeadLetterEntry)
    (packet : LogPacket) (finalError : String) (now : Int) :
    (saveToDeadLetterFile entries packet finalError now).length =
      if entries.length ≥ maxDeadLetterEntries then
        maxDeadLetterEntries / 2 + 1
      else
        entries.length + 1 := by
  by_cases h : entries.length ≥ maxDeadLetterEntries
  · simp [saveToDeadLetterFile, h]
    omega
  · simp [saveToDeadLetterFile, h]

/-- C8: starting from an empty store, every sequence of dead-letter appends
keeps the store at or below MaxDeadLetterEntries (10000); an append that
finds the store at or above the cap first truncates it to the 5000
most-recent entries and then appends the new one. -/
theorem deadLetter_bounded (appends : List (LogPacket × String × Int)) :
    (appends.foldl
        (fun acc e => saveToDeadLetterFile acc e.1 e.2.1 e.2.2) []).length ≤
      maxDeadLetterEntries ∧
    (∀ (entries : List DeadLetterEntry) (packet : LogPacket)
        (finalError : String) (now : Int),
      entries.length ≥ maxDeadLetterEntries →
      saveToDeadLetterFile entries packet finalError now =
        entries.drop (entries.length - maxDeadLetterEntries / 2) ++
          [⟨packet, finalError, now⟩] ∧
      (entries.drop (entries.length - maxDeadLetterEntries / 2)).length =
        maxDeadLetterEntries / 2) := by
  constructor
  · have key : ∀ (l : List (LogPacket × String × Int))
        (acc : List DeadLetterEntry), acc.length ≤ maxDeadLetterEntries →
        (l.foldl
          (fun acc e => saveToDeadLetterFile acc e.1 e.2.1 e.2.2) acc).length ≤
          maxDeadLetterEntries := by
      intro l
      induction l with
      | nil => intro acc h; simpa using h
      | cons e rest ih =>
        intro acc h
        refine ih _ ?_
        rw [saveToDeadLetterFile_length]
        have : maxDeadLetterEntries / 2 + 1 ≤ maxDeadLetterEntries := by
          norm_num [maxDeadLetterEntries]
        by_cases hc : acc.length ≥ maxDeadLetterEntries
        · simpa [hc] using this
        · simp [hc]
          omega
    exact key appends [] (by simp [maxDeadLetterEntries])
  · intro entries packet finalError now h
    refine ⟨by simp [saveToDeadLetterFile, h], ?_⟩
    simp only [List.length_drop]
    omega

/-- Witness for C8: appending to a store holding exactly 10000 entries
truncates to the 5000 most recent before appending. -/
theorem deadLetter_bounded_witness :
    saveToDeadLetterFile
        (List.replicate 10000 (⟨⟨"p0", [], 3⟩, "old", 0⟩ : DeadLetterEntry))
        ⟨"p1", [], 3⟩ "boom" 7 =
      (List.replicate 10000 (⟨⟨"p0", [], 3⟩, "old", 0⟩ : DeadLetterEntry)).drop
          ((List.replicate 10000
            (⟨⟨"p0", [], 3⟩, "old", 0⟩ : DeadLetterEntry)).length -
            maxDeadLetterEntries / 2) ++
        [⟨⟨"p1", [], 3⟩, "boom", 7⟩] :=
  ((deadLetter_bounded []).2
    (List.replicate 10000 (⟨⟨"p0", [], 3⟩, "old", 0⟩ : DeadLetterEntry))
    ⟨"p1", [], 3⟩ "boom" 7
    (by rw [List.length_replicate]; norm_num [maxDeadLetterEntries])).1

/-- One analyzer of the WeightedLoadBalancer together with its entries in
the `currentWeights` and `originalWeights` maps. NewLoadBalancer keys both
maps by the ids of the registry map, which are distinct, so the two float
maps are represented as a `current` and `original` field carried alongside
each analyzer; the list order models Go's (unspecified) map iteration
order over `lb.analyzers`. -/
structure LBEntry where
  analyzer : Analyzer
  current : ℚ
  original : ℚ
deriving Repr, DecidableEq

/-- The load balancer state: the registry with its weight-map entries. -/
abbrev LBState := List LBEntry

/-- The healthy subset built by the first loop of SelectAnalyzer
(load_balancer.go lines 53-58). -/
def healthyOf (s : LBState) : LBState :=
  s.filter (fun e => e.analyzer.isHealthy)

/-- `totalWeight`: the sum of originalWeights over the healthy analyzers. -/
def totalWeightOf (s : LBState) : ℚ :=
  ((healthyOf s).map (fun e => e.original)).sum

/-- The update loop (lines 65-67): add each healthy analyzer's original
weight to its current weight. -/
def addWeights (s : LBState) : LBState :=
  s.map (fun e =>
    if e.analyzer.isHealthy then { e with current := e.current + e.original }
    else e)

/-- The selection loop (lines 70-79): scan for the highest current weight,
starting from `selectedAnalyzer = nil` and `maxWeight = -1`, keeping the
first entry that strictly exceeds the running maximum. -/
def argmaxLoop : LBState → Option LBEntry → ℚ → Option LBEntry
  | [], best, _ => best
  | e :: rest, best, maxW =>
    if e.current > maxW then argmaxLoop rest (some e) e.current
    else argmaxLoop rest best maxW

/-- Line 83: `lb.currentWeights[selectedAnalyzer.ID] -= totalWeight`. -/
def subtractWeight (s : LBState) (id : String) (w : ℚ) : LBState :=
  s.map (fun e =>
    if e.analyzer.id = id then { e with current := e.current - w } else e)

/-- SelectAnalyzer from load_balancer.go lines 41-87. -/
def SelectAnalyzer (s : LBState) : Option Analyzer × LBState :=
  if s.isEmpty then (none, s)
  else if (healthyOf s).isEmpty ∨ totalWeightOf s = 0 then (none, s)
  else
    match argmaxLoop (healthyOf (addWeights s)) none (-1) with
    | none => (none, addWeights s)
    | some sel =>
      (some sel.analyzer,
        subtractWeight (addWeights s) sel.analyzer.id (totalWeightOf s))

theorem argmaxLoop_acc (l : LBState) : ∀ (b : LBEntry) (m : ℚ),
    ∃ r, argmaxLoop l (some b) m = some r ∧
      ((r = b ∧ ∀ f ∈ l, f.current ≤ m) ∨
        (∃ pre post, l = pre ++ r :: post ∧ m < r.current ∧
          (∀ f ∈ pre, f.current < r.current) ∧
          (∀ f ∈ post, f.current ≤ r.current))) := by
  induction l with
  | nil =>
    intro b m
    exact ⟨b, rfl, .inl ⟨rfl, by simp⟩⟩
  | cons e rest ih =>
    intro b m
    by_cases he : e.current > m
    · obtain ⟨r, hr, hca⟩ := ih e e.current
      refine ⟨r, by simp [argmaxLoop, he, hr], ?_⟩
      rcases hca with ⟨rfl, hall⟩ | ⟨pre, post, hl, hm, hpre, hpost⟩
      · exact .inr ⟨[], rest, by simp, he, by simp, hall⟩
      · refine .inr ⟨e :: pre, post, by simp [hl], lt_trans he hm, ?_, hpost⟩
        intro f hf
        rcases List.mem_cons.mp hf with rfl | hf
        · exact hm
        · exact hpre f hf
    · obtain ⟨r, hr, hca⟩ := ih b m
      refine ⟨r, by simp [argmaxLoop, he, hr], ?_⟩
      rcases hca with ⟨rfl, hall⟩ | ⟨pre, post, hl, hm, hpre, hpost⟩
      · refine .inl ⟨rfl, ?_⟩
        intro f hf
        rcases List.mem_cons.mp hf with rfl | hf
        · exact le_of_not_lt he
        · exact hall f hf
      · refine .inr ⟨e :: pre, post, by simp [hl], hm, ?_, hpost⟩
        intro f hf
        rcases List.mem_cons.mp hf with rfl | hf
        · exact lt_of_le_of_lt (le_of_not_lt he) hm
        · exact hpre f hf

theorem argmaxLoop_start (l : LBState) : ∀ (m : ℚ),
    (argmaxLoop l none m = none ∧ ∀ f ∈ l, f.current ≤ m) ∨
    (∃ r pre post, argmaxLoop l none m = some r ∧ l = pre ++ r :: post ∧
      m < r.current ∧ (∀ f ∈ pre, f.current < r.current) ∧
      (∀ f ∈ post, f.current ≤ r.current)) := by
  induction l with
  | nil =>
    intro m
    exact .inl ⟨rfl, by simp⟩
  | cons e rest ih =>
    intro m
    by_cases he : e.current > m
    · obtain ⟨r, hr, hca⟩ := argmaxLoop_acc rest e e.current
      refine .inr ⟨r, ?_⟩
      rcases hca with ⟨rfl, hall⟩ | ⟨pre, post, hl, hm, hpre, hpost⟩
      · exact ⟨[], rest, by simp [argmaxLoop, he, hr], by simp, he, by simp,
          hall⟩
      · refine ⟨e :: pre, post, by simp [argmaxLoop, he, hr], by simp [hl],
          lt_trans he hm, ?_, hpost⟩
        intro f hf
        rcases List.mem_cons.mp hf with rfl | hf
        · exact hm
        · exact hpre f hf
    · rcases ih m with ⟨hr, hall⟩ | ⟨r, pre, post, hr, hl, hm, hpre, hpost⟩
      · refine .inl ⟨by simp [argmaxLoop, he, hr], ?_⟩
        intro f hf
        rcases List.mem_cons.mp hf with rfl | hf
        · exact le_of_not_lt he
        · exact hall f hf
      · refine .inr ⟨r, e :: pre, post, by simp [argmaxLoop, he, hr],
          by simp [hl], hm, ?_, hpost⟩
        intro f hf
        rcases List.mem_cons.mp hf with rfl | hf
        · exact lt_of_le_of_lt (le_of_not_lt he) hm
        · exact hpre f hf

theorem selectAnalyzer_shape (s : LBState) :
    ((healthyOf s = [] ∨ totalWeightOf s = 0) ∧ SelectAnalyzer s = (none, s)) ∨
    (healthyOf s ≠ [] ∧ totalWeightOf s ≠ 0 ∧
      (∀ f ∈ healthyOf (addWeights s), f.current ≤ -1) ∧
      SelectAnalyzer s = (none, addWeights s)) ∨
    (∃ e pre post, healthyOf (addWeights s) = pre ++ e :: post ∧
      -1 < e.current ∧ (∀ f ∈ pre, f.current < e.current) ∧
      (∀ f ∈ post, f.current ≤ e.current) ∧
      healthyOf s ≠ [] ∧ totalWeightOf s ≠ 0 ∧
      SelectAnalyzer s = (some e.analyzer,
        subtractWeight (addWeights s) e.analyzer.id (totalWeightOf s))) := by
  by_cases hes : s.isEmpty
  · refine .inl ⟨.inl ?_, by simp [SelectAnalyzer, hes]⟩
    cases s with
    | nil => rfl
    | cons e rest => simp [List.isEmpty] at hes
  · by_cases hhe : (healthyOf s).isEmpty ∨ totalWeightOf s = 0
    · refine .inl ⟨?_, ?_⟩
      · rcases hhe with h | h
        · exact .inl (List.isEmpty_iff.mp h)
        · exact .inr h
      · unfold SelectAnalyzer
        rw [if_neg hes, if_pos hhe]
    · have hcond := hhe
      push_neg at hhe
      obtain ⟨hne, hnw⟩ := hhe
      have hne' : healthyOf s ≠ [] := fun h => hne (by simp [h])
      rcases argmaxLoop_start (healthyOf (addWeights s)) (-1) with
        ⟨hr, hall⟩ | ⟨r, pre, post, hr, hl, hm, hpre, hpost⟩
      · refine .inr (.inl ⟨hne', hnw, hall, ?_⟩)
        unfold SelectAnalyzer
        rw [if_neg hes, if_neg hcond, hr]
      · refine .inr (.inr ⟨r, pre, post, hl, hm, hpre, hpost, hne', hnw, ?_⟩)
        unfold SelectAnalyzer
        rw [if_neg hes, if_neg hcond, hr]

/-- A healthy analyzer with id "a" and weight 1/2. -/
def cexAnalyzerA : Analyzer := ⟨"a", "A", 1/2, 0, true, 0, 0, 0⟩

/-- A healthy analyzer with id "b" and weight 1/2. -/
def cexAnalyzerB : Analyzer := ⟨"b", "B", 1/2, 0, true, 0, 0, 0⟩

/-- A load-balancer state in which the registry iteration happens to visit
"b" before "a", both healthy with equal weights. -/
def cexLB : LBState :=
  [⟨cexAnalyzerB, 1/2, 1/2⟩, ⟨cexAnalyzerA, 1/2, 1/2⟩]

theorem cexLB_select_eq :
    SelectAnalyzer cexLB =
      (some cexAnalyzerB,
        subtractWeight (addWeights cexLB) "b" (totalWeightOf cexLB)) := by
  norm_num [SelectAnalyzer, cexLB, cexAnalyzerA, cexAnalyzerB, healthyOf,
    totalWeightOf, addWeights, argmaxLoop, subtractWeight, List.filter]

/-- Counterexample to C4: with two healthy analyzers of equal weights and
equal updated current weights, SelectAnalyzer returns whichever the map
iteration visits first — here id "b" — not the one with the smaller id "a",
so ties are NOT broken by ascending analyzer id. -/
theorem selectAnalyzer_tie_not_min_id :
    (SelectAnalyzer cexLB).1 = some cexAnalyzerB ∧
    cexAnalyzerA.id = "a" ∧ cexAnalyzerB.id = "b" ∧
    cexAnalyzerA.isHealthy = true ∧ cexAnalyzerB.isHealthy = true ∧
    (healthyOf (addWeights cexLB)).map (fun e => e.current) = [1, 1] ∧
    (SelectAnalyzer cexLB).1 ≠ some cexAnalyzerA := by
  refine ⟨by rw [cexLB_select_eq], rfl, rfl, rfl, rfl, ?_, ?_⟩
  · norm_num [cexLB, cexAnalyzerA, cexAnalyzerB, healthyOf, addWeights,
      List.filter]
  · rw [cexLB_select_eq]
    intro h
    simp only [Option.some.injEq] at h
    exact absurd (congrArg Analyzer.id h)
      (by simp [cexAnalyzerA, cexAnalyzerB])

/-- C4 (amended): SelectAnalyzer returns no analyzer when the healthy set is
empty or its original-weight sum W is zero (state untouched), and also in
the degenerate case where every healthy analyzer's updated current weight is
at most the -1 sentinel (weights updated, nothing subtracted). When it
returns an analyzer, that analyzer is the FIRST healthy one in registry
iteration order attaining the maximal updated current weight — ties go to
iteration order, not to ascending id — and W is subtracted from its current
weight. -/
theorem selectAnalyzer_characterization (s : LBState) :
    (∀ s', SelectAnalyzer s = (none, s') →
      ((healthyOf s = [] ∨ totalWeightOf s = 0) ∧ s' = s) ∨
      (healthyOf s ≠ [] ∧ totalWeightOf s ≠ 0 ∧
        (∀ f ∈ healthyOf (addWeights s), f.current ≤ -1) ∧
        s' = addWeights s)) ∧
    (∀ a s', SelectAnalyzer s = (some a, s') →
      healthyOf s ≠ [] ∧ totalWeightOf s ≠ 0 ∧
      ∃ e pre post, healthyOf (addWeights s) = pre ++ e :: post ∧
        e.analyzer = a ∧ -1 < e.current ∧
        (∀ f ∈ pre, f.current < e.current) ∧
        (∀ f ∈ post, f.current ≤ e.current) ∧
        s' = subtractWeight (addWeights s) a.id (totalWeightOf s)) := by
  have hsh := selectAnalyzer_shape s
  constructor
  · intro s' h
    rcases hsh with ⟨hc, he⟩ | ⟨h1, h2, h3, he⟩ |
      ⟨e, pre, post, hl, hm, hpre, hpost, h1, h2, he⟩
    · rw [he] at h
      injection h with ha hb
      exact .inl ⟨hc, hb.symm⟩
    · rw [he] at h
      injection h with ha hb
      exact .inr ⟨h1, h2, h3, hb.symm⟩
    · rw [he] at h
      injection h with ha hb
      cases ha
  · intro a s' h
    rcases hsh with ⟨hc, he⟩ | ⟨h1, h2, h3, he⟩ |
      ⟨e, pre, post, hl, hm, hpre, hpost, h1, h2, he⟩
    · rw [he] at h
      injection h with ha hb
      cases ha
    · rw [he] at h
      injection h with ha hb
      cases ha
    · rw [he] at h
      injection h with ha hb
      injection ha with ha
      exact ⟨h1, h2, e, pre, post, hl, ha, hm, hpre, hpost,
        by rw [← hb, ← ha]⟩

/-- Witness for the amended C4 at the concrete two-analyzer state. -/
theorem selectAnalyzer_characterization_witness :
    healthyOf cexLB ≠ [] ∧ totalWeightOf cexLB ≠ 0 := by
  have h := (selectAnalyzer_characterization cexLB).2 cexAnalyzerB
    (subtractWeight (addWeights cexLB) "b" (totalWeightOf cexLB))
    cexLB_select_eq
  exact ⟨h.1, h.2.1⟩

/-- The sum of currentWeights over the healthy analyzers. -/
def healthyCurrentSum (s : LBState) : ℚ :=
  ((healthyOf s).map (fun e => e.current)).sum

/-- n successive SelectAnalyzer calls, threading the weight state. -/
def selectIterate : Nat → LBState → LBState
  | 0, s => s
  | n + 1, s => selectIterate n (SelectAnalyzer s).2

/-- Every one of the next n SelectAnalyzer calls returns an analyzer. -/
def selectRunOk : Nat → LBState → Prop
  | 0, _ => True
  | n + 1, s =>
    (SelectAnalyzer s).1.isSome = true ∧ selectRunOk n (SelectAnalyzer s).2

theorem healthyOf_cons (e : LBEntry) (rest : LBState) :
    healthyOf (e :: rest) =
      if e.analyzer.isHealthy then e :: healthyOf rest else healthyOf rest := by
  cases he : e.analyzer.isHealthy <;> simp [healthyOf, List.filter_cons, he]

theorem addWeights_cons (e : LBEntry) (rest : LBState) :
    addWeights (e :: rest) =
      (if e.analyzer.isHealthy then { e with current := e.current + e.original }
        else e) :: addWeights rest := rfl

theorem totalWeightOf_cons (e : LBEntry) (rest : LBState) :
    totalWeightOf (e :: rest) =
      if e.analyzer.isHealthy then e.original + totalWeightOf rest
      else totalWeightOf rest := by
  cases he : e.analyzer.isHealthy <;>
    simp [totalWeightOf, healthyOf_cons, he]

theorem healthyCurrentSum_cons (e : LBEntry) (rest : LBState) :
    healthyCurrentSum (e :: rest) =
      if e.analyzer.isHealthy then e.current + healthyCurrentSum rest
      else healthyCurrentSum rest := by
  cases he : e.analyzer.isHealthy <;>
    simp [healthyCurrentSum, healthyOf_cons, he]

theorem healthyCurrentSum_addWeights (s : LBState) :
    healthyCurrentSum (addWeights s) = healthyCurrentSum s + totalWeightOf s := by
  induction s with
  | nil => simp [healthyCurrentSum, healthyOf, addWeights, totalWeightOf]
  | cons e rest ih =>
    cases he : e.analyzer.isHealthy
    · have hne : ¬ e.analyzer.isHealthy = true := by simp [he]
      rw [addWeights_cons, if_neg hne, healthyCurrentSum_cons, if_neg hne,
        healthyCurrentSum_cons, if_neg hne, totalWeightOf_cons, if_neg hne, ih]
    · have hupd : ({ e with current := e.current + e.original } :
          LBEntry).analyzer.isHealthy = true := he
      rw [addWeights_cons, if_pos he, healthyCurrentSum_cons, if_pos hupd,
        healthyCurrentSum_cons, if_pos he, totalWeightOf_cons, if_pos he, ih]
      ring

theorem subtractWeight_not_mem (l : LBState) (k : String) (w : ℚ)
    (h : ∀ e ∈ l, e.analyzer.id ≠ k) : subtractWeight l k w = l := by
  induction l with
  | nil => rfl
  | cons f rest ih =>
    have hf : ¬ f.analyzer.id = k := h f (by simp)
    simp only [subtractWeight, List.map_cons, if_neg hf]
    rw [show List.map _ rest = subtractWeight rest k w from rfl,
      ih (fun e he => h e (by simp [he]))]

theorem healthyCurrentSum_subtractWeight (l : LBState) (k : String) (w : ℚ)
    (hnd : (l.map (fun e => e.analyzer.id)).Nodup)
    (e : LBEntry) (hmem : e ∈ l) (hh : e.analyzer.isHealthy = true)
    (hid : e.analyzer.id = k) :
    healthyCurrentSum (subtractWeight l k w) = healthyCurrentSum l - w := by
  induction l with
  | nil => cases hmem
  | cons f rest ih =>
    rw [List.map_cons, List.nodup_cons] at hnd
    rcases List.mem_cons.mp hmem with rfl | hmem'
    · have hrest : ∀ g ∈ rest, g.analyzer.id ≠ k := by
        intro g hg hgk
        exact hnd.1 (hid ▸ hgk ▸ List.mem_map_of_mem _ hg)
      simp only [subtractWeight, List.map_cons, if_pos hid]
      rw [show List.map _ rest = subtractWeight rest k w from rfl,
        subtractWeight_not_mem rest k w hrest]
      have hupd : ({ e with current := e.current - w } :
          LBEntry).analyzer.isHealthy = true := hh
      rw [healthyCurrentSum_cons, if_pos hupd, healthyCurrentSum_cons,
        if_pos hh]
      ring
    · have hfk : ¬ f.analyzer.id = k := by
        intro hk
        exact hnd.1 (hk ▸ hid ▸ List.mem_map_of_mem _ hmem')
      simp only [subtractWeight, List.map_cons, if_neg hfk]
      rw [show List.map _ rest = subtractWeight rest k w from rfl]
      cases hf : f.analyzer.isHealthy
      · have hne : ¬ f.analyzer.isHealthy = true := by simp [hf]
        rw [healthyCurrentSum_cons, if_neg hne, healthyCurrentSum_cons,
          if_neg hne, ih hnd.2 hmem']
      · rw [healthyCurrentSum_cons, if_pos hf, healthyCurrentSum_cons,
          if_pos hf, ih hnd.2 hmem']
        ring

theorem map_analyzer_id_of_preserved (l : LBState) (g : LBEntry → LBEntry)
    (hg : ∀ e, (g e).analyzer = e.analyzer) :
    (l.map g).map (fun e => e.analyzer.id) = l.map (fun e => e.analyzer.id) := by
  rw [List.map_map]
  apply List.map_congr_left
  intro e _
  simp [Function.comp, hg e]

theorem addWeights_ids (s : LBState) :
    (addWeights s).map (fun e => e.analyzer.id) =
      s.map (fun e => e.analyzer.id) := by
  apply map_analyzer_id_of_preserved
  intro e
  cases he : e.analyzer.isHealthy <;> simp [he]

theorem subtractWeight_ids (l : LBState) (k : String) (w : ℚ) :
    (subtractWeight l k w).map (fun e => e.analyzer.id) =
      l.map (fun e => e.analyzer.id) := by
  apply map_analyzer_id_of_preserved
  intro e
  by_cases he : e.analyzer.id = k <;> simp [he]

theorem select_ids (s : LBState) :
    (SelectAnalyzer s).2.map (fun e => e.analyzer.id) =
      s.map (fun e => e.analyzer.id) := by
  rcases selectAnalyzer_shape s with ⟨_, he⟩ | ⟨_, _, _, he⟩ |
    ⟨e, pre, post, _, _, _, _, _, _, he⟩ <;>
    rw [he] <;>
    simp [addWeights_ids, subtractWeight_ids]

theorem select_some_sum (s : LBState)
    (hnd : (s.map (fun e => e.analyzer.id)).Nodup) (a : Analyzer)
    (s' : LBState) (h : SelectAnalyzer s = (some a, s')) :
    healthyCurrentSum s' = healthyCurrentSum s := by
  rcases selectAnalyzer_shape s with ⟨_, he⟩ | ⟨_, _, _, he⟩ |
    ⟨e, pre, post, hl, hm, hpre, hpost, h1, h2, he⟩
  · rw [he] at h
    injection h with ha
    cases ha
  · rw [he] at h
    injection h with ha
    cases ha
  · rw [he] at h
    injection h with ha hb
    injection ha with ha
    have hmem' : e ∈ healthyOf (addWeights s) := by
      rw [hl]
      exact List.mem_append_right _ (by simp)
    have hmem : e ∈ addWeights s := List.mem_of_mem_filter hmem'
    have hh : e.analyzer.isHealthy = true := by
      have := List.of_mem_filter hmem'
      simpa using this
    have hnd' : ((addWeights s).map (fun e => e.analyzer.id)).Nodup := by
      rw [addWeights_ids]
      exact hnd
    rw [← hb]
    rw [healthyCurrentSum_subtractWeight (addWeights s) e.analyzer.id
      (totalWeightOf s) hnd' e hmem hh rfl]
    rw [healthyCurrentSum_addWeights]
    ring

/-- C10: whenever SelectAnalyzer returns an analyzer, the sum of current
weights over the healthy analyzers is unchanged by the call (each healthy
analyzer gains its original weight, totalling W, and the selected healthy
analyzer loses W); consequently the sum is conserved across any run of
successful selections. -/
theorem selectAnalyzer_preserves_healthy_sum (s : LBState)
    (hnd : (s.map (fun e => e.analyzer.id)).Nodup) :
    (∀ a s', SelectAnalyzer s = (some a, s') →
      healthyCurrentSum s' = healthyCurrentSum s) ∧
    (∀ n, selectRunOk n s →
      healthyCurrentSum (selectIterate n s) = healthyCurrentSum s) := by
  refine ⟨fun a s' h => select_some_sum s hnd a s' h, ?_⟩
  intro n
  induction n generalizing s with
  | zero => intro _; rfl
  | succ k ih =>
    intro hok
    obtain ⟨hsome, hrest⟩ := hok
    obtain ⟨a, ha⟩ := Option.isSome_iff_exists.mp hsome
    have h : SelectAnalyzer s = (some a, (SelectAnalyzer s).2) := by
      rw [← ha]
    have hstep := select_some_sum s hnd a (SelectAnalyzer s).2 h
    have hnd2 : ((SelectAnalyzer s).2.map (fun e => e.analyzer.id)).Nodup := by
      rw [select_ids]
      exact hnd
    calc healthyCurrentSum (selectIterate (k + 1) s)
        = healthyCurrentSum (selectIterate k (SelectAnalyzer s).2) := rfl
      _ = healthyCurrentSum (SelectAnalyzer s).2 := ih (SelectAnalyzer s).2 hnd2 hrest
      _ = healthyCurrentSum s := hstep

/-- Witness for C10: the concrete two-analyzer selection preserves the
healthy current-weight sum. -/
theorem selectAnalyzer_preserves_healthy_sum_witness :
    healthyCurrentSum
        (subtractWeight (addWeights cexLB) "b" (totalWeightOf cexLB)) =
      healthyCurrentSum cexLB := by
  exact (selectAnalyzer_preserves_healthy_sum cexLB (by decide)).1
    cexAnalyzerB _ cexLB_select_eq

/-- A lexical token of the serialized state. `json.Marshal` renders the
state as a stream of JSON tokens (strings, numbers, booleans); the embedding
keeps the stream at token granularity, with Go float64 numbers as rationals
and int64 numbers as integers. -/
inductive Token where
  | nat (n : Nat)
  | int (i : Int)
  | str (s : String)
  | bool (b : Bool)
  | rat (q : ℚ)
deriving Repr, DecidableEq

/-- Marshalling of a LogMessage: its five serialized fields in order. -/
def encLogMessage (m : LogMessage) : List Token :=
  [.str m.id, .int m.timestamp, .str m.level, .str m.message, .str m.source]

/-- Unmarshalling of a LogMessage; fails on a malformed stream. -/
def parseLogMessage : List Token → Option (LogMessage × List Token)
  | .str i :: .int ts :: .str lv :: .str msg :: .str src :: rest =>
    some (⟨i, ts, lv, msg, src⟩, rest)
  | _ => none

/-- Marshalling of the elements of a JSON array, one after the other. -/
def encListAux {α : Type} (enc : α → List Token) : List α → List Token
  | [] => []
  | x :: xs => enc x ++ encListAux enc xs

/-- Marshalling of a JSON array: its length followed by its elements. -/
def encList {α : Type} (enc : α → List Token) (xs : List α) : List Token :=
  .nat xs.length :: encListAux enc xs

/-- Unmarshalling of exactly n array elements. -/
def parseListN {α : Type} (p : List Token → Option (α × List Token)) :
    Nat → List Token → Option (List α × List Token)
  | 0, ts => some ([], ts)
  | n + 1, ts =>
    match p ts with
    | none => none
    | some (x, ts') =>
      match parseListN p n ts' with
      | none => none
      | some (xs, ts'') => some (x :: xs, ts'')

/-- Unmarshalling of a JSON array. -/
def parseList {α : Type} (p : List Token → Option (α × List Token)) :
    List Token → Option (List α × List Token)
  | .nat n :: rest => parseListN p n rest
  | _ => none

/-- Marshalling of an Analyzer: its eight serialized fields in order. -/
def encAnalyzer (a : Analyzer) : List Token :=
  [.str a.id, .str a.name, .rat a.weight, .int a.processingTimeMs,
    .bool a.isHealthy, .int a.lastHealthCheck, .int a.processedCount,
    .int a.errorCount]

/-- Unmarshalling of an Analyzer. -/
def parseAnalyzer : List Token → Option (Analyzer × List Token)
  | .str i :: .str nm :: .rat w :: .int pt :: .bool ih :: .int lhc ::
      .int pc :: .int ec :: rest =>
    some (⟨i, nm, w, pt, ih, lhc, pc, ec⟩, rest)
  | _ => none

/-- Marshalling of one key/value pair of the analyzers JSON object. -/
def encAnalyzerEntry (kv : String × Analyzer) : List Token :=
  .str kv.1 :: encAnalyzer kv.2

/-- Unmarshalling of one key/value pair of the analyzers JSON object. -/
def parseAnalyzerEntry : List Token → Option ((String × Analyzer) × List Token)
  | .str k :: rest =>
    match parseAnalyzer rest with
    | some (a, r) => some ((k, a), r)
    | none => none
  | _ => none

/-- Marshalling of a LogPacket: id, messages array, retry count. -/
def encLogPacket (p : LogPacket) : List Token :=
  .str p.id :: encList encLogMessage p.messages ++ [.nat p.retryCount]

/-- Unmarshalling of a LogPacket. -/
def parseLogPacket : List Token → Option (LogPacket × List Token)
  | .str i :: rest =>
    match parseList parseLogMessage rest with
    | some (ms, .nat rc :: r) => some (⟨i, ms, rc⟩, r)
    | _ => none
  | _ => none

/-- DistributorState from models/models.go: analyzer map (an association
list keyed by the distinct registry ids), pending packets, checkpoint time,
total processed count. -/
structure DistributorState where
  analyzers : List (String × Analyzer)
  pendingPackets : List LogPacket
  lastCheckpoint : Int
  totalProcessed : Int
deriving Repr, DecidableEq

/-- json.Marshal of a DistributorState: its four serialized fields. -/
def encState (s : DistributorState) : List Token :=
  encList encAnalyzerEntry s.analyzers ++ encList encLogPacket s.pendingPackets
    ++ [.int s.lastCheckpoint, .int s.totalProcessed]

/-- json.Unmarshal of a DistributorState. -/
def parseState : List Token → Option (DistributorState × List Token)
  | ts =>
    match parseList parseAnalyzerEntry ts with
    | some (as, r1) =>
      match parseList parseLogPacket r1 with
      | some (ps, .int lc :: .int tp :: r2) => some (⟨as, ps, lc, tp⟩, r2)
      | _ => none
    | none => none

/-- The gzip layer, modelled as a lossless run-length compression of the
token stream. -/
def rleEncode : List Token → List (Nat × Token)
  | [] => []
  | t :: ts =>
    match rleEncode ts with
    | [] => [(1, t)]
    | (n, t') :: rest =>
      if t = t' then (n + 1, t') :: rest else (1, t) :: (n, t') :: rest

/-- Decompression of the run-length layer. -/
def rleDecode : List (Nat × Token) → List Token
  | [] => []
  | (n, t) :: rest => List.replicate n t ++ rleDecode rest

/-- SaveState from persistence_manager.go: marshal the state and write the
compressed bytes; the value is the file contents. -/
def SaveState (s : DistributorState) : List (Nat × Token) :=
  rleEncode (encState s)

/-- RecoverState from persistence_manager.go: decompress the file contents
and unmarshal, failing on leftover or malformed data. -/
def RecoverState (file : List (Nat × Token)) : Option DistributorState :=
  match parseState (rleDecode file) with
  | some (s, []) => some s
  | _ => none

theorem parseLogMessage_enc (m : LogMessage) (r : List Token) :
    parseLogMessage (encLogMessage m ++ r) = some (m, r) := rfl

theorem parseListN_enc {α : Type} (p : List Token → Option (α × List Token))
    (enc : α → List Token) (hp : ∀ x r, p (enc x ++ r) = some (x, r)) :
    ∀ (xs : List α) (r : List Token),
      parseListN p xs.length (encListAux enc xs ++ r) = some (xs, r) := by
  intro xs
  induction xs with
  | nil => intro r; simp [encListAux, parseListN]
  | cons x rest ih =>
    intro r
    simp [encListAux, parseListN, List.append_assoc, hp, ih]

theorem parseList_enc {α : Type} (p : List Token → Option (α × List Token))
    (enc : α → List Token) (hp : ∀ x r, p (enc x ++ r) = some (x, r))
    (xs : List α) (r : List Token) :
    parseList p (encList enc xs ++ r) = some (xs, r) := by
  simp [encList, parseList, parseListN_enc p enc hp]

theorem parseAnalyzer_enc (a : Analyzer) (r : List Token) :
    parseAnalyzer (encAnalyzer a ++ r) = some (a, r) := rfl

theorem parseAnalyzerEntry_enc (kv : String × Analyzer) (r : List Token) :
    parseAnalyzerEntry (encAnalyzerEntry kv ++ r) = some (kv, r) := by
  simp [encAnalyzerEntry, parseAnalyzerEntry, parseAnalyzer_enc]

theorem parseLogPacket_enc (p : LogPacket) (r : List Token) :
    parseLogPacket (encLogPacket p ++ r) = some (p, r) := by
  simp [encLogPacket, parseLogPacket, List.append_assoc,
    parseList_enc parseLogMessage encLogMessage parseLogMessage_enc]

theorem parseState_enc (s : DistributorState) (r : List Token) :
    parseState (encState s ++ r) = some (s, r) := by
  simp [encState, parseState, List.append_assoc,
    parseList_enc parseAnalyzerEntry encAnalyzerEntry parseAnalyzerEntry_enc,
    parseList_enc parseLogPacket encLogPacket parseLogPacket_enc]

theorem rleDecode_rleEncode : ∀ ts : List Token, rleDecode (rleEncode ts) = ts := by
  intro ts
  induction ts with
  | nil => rfl
  | cons t rest ih =>
    cases hE : rleEncode rest with
    | nil =>
      rw [hE] at ih
      simp only [rleDecode] at ih
      simp [rleEncode, hE, rleDecode, ← ih]
    | cons ht tl =>
      obtain ⟨n, t'⟩ := ht
      rw [hE] at ih
      by_cases hEq : t = t'
      · simp only [rleEncode, hE, if_pos hEq]
        simp only [rleDecode] at ih ⊢
        rw [List.replicate_succ, hEq]
        simp [ih]
      · simp only [rleEncode, hE, if_neg hEq]
        simp only [rleDecode] at ih ⊢
        simp [ih]

/-- C9: recovering immediately after saving returns the saved
DistributorState exactly — every analyzer entry with its counters and
health-check timestamp, every pending packet with its retry count, the
checkpoint time and the total processed count survive the
marshal/compress/decompress/unmarshal round trip. -/
theorem recoverState_saveState (s : DistributorState) :
    RecoverState (SaveState s) = some s := by
  unfold RecoverState SaveState
  rw [rleDecode_rleEncode]
  have h := parseState_enc s []
  rw [List.append_nil] at h
  rw [h]

end LogsDistributor
